import Mathlib

/-!
# Verification of a parallel Game of Life simulator

Shallow embedding of the C sources (`gol.c`, `main.c`) of a parallel
Conway's Game of Life on a toroidal grid, together with proofs of the
specification's claims about it.

The grid is a flat `List Int` in row-major order (the C code uses
`int *world`); `1` is ALIVE, every other value is DEAD for the rule's
test `world[index] == 1`.  Reads of `world[i]` become `List.getD i 0`
and writes become `List.set`.
-/

namespace GoL

/-- Embedding of `translate_to_1D` (gol.c): single-step wraparound of
`col` into `[0,W)` and `row` into `[0,H)`, then row-major index
`row*W + col`. -/
def translate_to_1D (col row : Int) (num_cols num_rows : Nat) : Int :=
  let col' := if col < 0 then col + num_cols
              else if col ≥ (num_cols : Int) then col - num_cols
              else col
  let row' := if row < 0 then row + num_rows
              else if row ≥ (num_rows : Int) then row - num_rows
              else row
  row' * num_cols + col'

/-- Embedding of `count_live_neighbors` (gol.c): the two nested loops
`col = x-1..x+1`, `row = y-1..y+1` with `continue` at the centre, summing
the cells whose wrapped index holds `1` (each loop body contributes `1`
exactly when it executes `++sum`). -/
def count_live_neighbors (world : List Int) (x y : Int)
    (num_cols num_rows : Nat) : Nat :=
  [x - 1, x, x + 1].foldl (fun sum col =>
    [y - 1, y, y + 1].foldl (fun sum row =>
      sum + (if col = x ∧ row = y then 0
        else if world.getD (translate_to_1D col row num_cols num_rows).toNat 0 = 1
        then 1 else 0)) sum) 0

/-- Embedding of `update_cell` (gol.c): kills a live cell with fewer than 2
or more than 3 live neighbours, otherwise writes `1` when the neighbour
count is exactly 3, and otherwise performs no write at all. -/
def update_cell (curr_world next_world : List Int) (x y : Int)
    (num_cols num_rows : Nat) : List Int :=
  let index := (translate_to_1D x y num_cols num_rows).toNat
  let num_live_neighbors := count_live_neighbors curr_world x y num_cols num_rows
  if curr_world.getD index 0 = 1 ∧
      (num_live_neighbors < 2 ∨ num_live_neighbors > 3) then
    next_world.set index 0
  else if num_live_neighbors = 3 then
    next_world.set index 1
  else
    next_world

/-- The inclusive integer range `[lo, hi]` as a list (`for (y = lo; y <= hi; y++)`). -/
def intRange (lo hi : Int) : List Int :=
  (List.range (hi + 1 - lo).toNat).map (fun (k : Nat) => lo + (k : Int))

/-- One iteration of the outer loop of `update_world` (gol.c): the inner
loop over `x = 0 .. num_cols-1` updating row `y` of the live grid,
reading the snapshot `world_copy`. -/
def update_row (world_copy : List Int) (num_cols num_rows : Nat) (w : List Int)
    (y : Int) : List Int :=
  ((List.range num_cols).map (Int.ofNat)).foldl
    (fun w x => update_cell world_copy w x y num_cols num_rows) w

/-- Embedding of `update_world` (gol.c): applies `update_cell` to every
cell of rows `start_row..end_row` (inclusive), reading `world_copy` and
writing `world`. -/
def update_world (world world_copy : List Int) (num_cols num_rows : Nat)
    (start_row end_row : Int) : List Int :=
  (intRange start_row end_row).foldl
    (fun w y => update_row world_copy num_cols num_rows w y) world

/-- The single-step wraparound applied by `translate_to_1D` to one coordinate. -/
def wrap1 (a : Int) (m : Nat) : Int :=
  if a < 0 then a + m else if a ≥ (m : Int) then a - m else a

/-- The 8 Moore-neighbourhood offsets, as listed in the specification. -/
def mooreOffsets : List (Int × Int) :=
  [(-1, -1), (-1, 0), (-1, 1), (0, -1), (0, 1), (1, -1), (1, 0), (1, 1)]

/-- The specification's description of neighbour counting: how many of the
8 Moore-neighbourhood cells, each translated through the toroidal index,
are ALIVE. -/
def moore_live_count (world : List Int) (x y : Int) (W H : Nat) : Nat :=
  mooreOffsets.countP
    (fun d => world.getD (translate_to_1D (x + d.1) (y + d.2) W H).toNat 0 = 1)

/-- The B3/S23 update rule exactly as the specification phrases it, as a
pure function of the previous state and the live-neighbour count. -/
def b3s23 (s : Int) (n : Nat) : Int :=
  if s = 1 then (if n < 2 ∨ n > 3 then 0 else 1)
  else if n = 3 then 1 else 0

/-- Embedding of the band-assignment loop of `run_threads` (main.c): one
recursive step per thread `i`; `rem` is the running `remainder`, `cur` the
running `cur`, `rpt` the fixed `rows_per_thread`.  Each band is the pair
`(start_row, end_row)` stored into that thread's `ThreadData`. -/
def bandsAux : Nat → Nat → Int → Nat → List (Int × Int)
  | 0, _, _, _ => []
  | n + 1, rem, cur, rpt =>
    if rem > 0 then
      (cur, cur + rpt) :: bandsAux n (rem - 1) (cur + rpt + 1) rpt
    else
      (cur, cur + rpt - 1) :: bandsAux n rem (cur + rpt) rpt

/-- The bands `run_threads` (main.c) assigns to threads `0..num_threads-1`:
`remainder = height % num_threads`, `rows_per_thread = height / num_threads`,
starting from `cur = 0`. -/
def mkBands (height num_threads : Nat) : List (Int × Int) :=
  bandsAux num_threads (height % num_threads) 0 (height / num_threads)

/-- One generation of the turn protocol (`thread_function`, main.c): the
leader copies the live grid into the snapshot at the barrier, then every
worker applies `update_world` to its own band, reading the shared snapshot
(the grid as it was when the generation began) and writing the live grid.
Since all bands read only the snapshot and write disjoint cells, the
concurrent execution is embedded as the left fold over the bands. -/
def run_generation (num_threads width height : Nat) (world : List Int) :
    List Int :=
  (mkBands height num_threads).foldl
    (fun w se => update_world w world width height se.1 se.2) world

/-- The whole simulation: `num_turns` generations of the turn protocol. -/
def simulate (num_threads width height : Nat) : Nat → List Int → List Int
  | 0, world => world
  | k + 1, world =>
    simulate num_threads width height k
      (run_generation num_threads width height world)

/-- A command-line option recognised by the `getopt` loop of `main`
(main.c), with the value its `sscanf` parses. -/
inductive Opt
  | c (filename : String)
  | t (val : Int)
  | d (val : Int)
  | p (val : Int)
deriving DecidableEq

/-- The variables of `main` (main.c) written during option parsing. -/
structure MainConfig where
  config_filename : Option String
  delay : Int
  num_turns : Int
  p : Int
  num_threads : Int
deriving DecidableEq

/-- The initial values of `main`'s variables (main.c lines 58-64). -/
def initialConfig : MainConfig :=
  { config_filename := none, delay := 100, num_turns := 20, p := 1,
    num_threads := 2 }

/-- One iteration of the `getopt` switch (main.c lines 68-94): `-c` sets
`config_filename`, `-t` sets `num_turns`, `-d` sets `delay`, and `-p` sets
`num_threads`. -/
def applyOpt (cfg : MainConfig) : Opt → MainConfig
  | .c s => { cfg with config_filename := some s }
  | .t v => { cfg with num_turns := v }
  | .d v => { cfg with delay := v }
  | .p v => { cfg with num_threads := v }

/-- The whole option-parsing loop of `main`.  `main` then passes
`(parseArgs opts).num_threads` to `run_threads` (main.c line 129). -/
def parseArgs (opts : List Opt) : MainConfig :=
  opts.foldl applyOpt initialConfig

/-- One `fscanf` of a numeric field from the configuration stream: `some v`
is a field the scan reads successfully, `none` a malformed field; an empty
stream is end-of-file.  Either failure makes `fscanf` return a value `≠ 1`. -/
def readInt : List (Option Int) → Option (Int × List (Option Int))
  | [] => none
  | none :: _ => none
  | some v :: rest => some (v, rest)

/-- The coordinate-pair loop of `initialize_world` (gol.c lines 127-136):
reads `n` pairs, marking each pair's wrapped index live, and fails when a
pair cannot be read. -/
def read_pairs : Nat → List (Option Int) → List Int → Nat → Nat →
    Option (List Int)
  | 0, _, world, _, _ => some world
  | n + 1, ts, world, num_cols, num_rows =>
    match readInt ts with
    | none => none
    | some (col, ts1) =>
      match readInt ts1 with
      | none => none
      | some (row, ts2) =>
        read_pairs n ts2
          (world.set (translate_to_1D col row num_cols num_rows).toNat 1)
          num_cols num_rows

/-- Embedding of `initialize_world` (gol.c): reads `num_rows`, `num_cols`
and the pair count (each failed read returns NULL), allocates the zeroed
`num_cols * num_rows` grid, then runs the pair loop.  The pair count is
read with `%d` into an `unsigned`, hence the `% 2^32` conversion. -/
def initialize_world (file : Option (List (Option Int))) :
    Option (List Int × Int × Int) :=
  match file with
  | none => none
  | some ts =>
    match readInt ts with
    | none => none
    | some (num_rows, ts1) =>
      match readInt ts1 with
      | none => none
      | some (num_cols, ts2) =>
        match readInt ts2 with
        | none => none
        | some (num_pairs, ts3) =>
          let world := List.replicate (num_cols * num_rows).toNat (0 : Int)
          match read_pairs (num_pairs % (2 ^ 32 : Int)).toNat ts3 world
              num_cols.toNat num_rows.toNat with
          | none => none
          | some w => some (w, num_cols, num_rows)

/-- The token stream announcing exactly the coordinate pairs `ps`. -/
def encodePairs (ps : List (Int × Int)) : List (Option Int) :=
  ps.flatMap (fun p => [some p.1, some p.2])

/-- The cumulative effect of the pair loop on the grid: mark each pair's
wrapped index live, in order. -/
def setPairs (world : List Int) (ps : List (Int × Int))
    (num_cols num_rows : Nat) : List Int :=
  ps.foldl
    (fun w p => w.set (translate_to_1D p.1 p.2 num_cols num_rows).toNat 1)
    world

theorem translate_eq_wrap1 (col row : Int) (W H : Nat) :
    translate_to_1D col row W H = wrap1 row H * W + wrap1 col W := rfl

theorem wrap1_bounds (a : Int) (m : Nat) (hm : 0 < m)
    (h1 : -(m : Int) ≤ a) (h2 : a < 2 * m) :
    0 ≤ wrap1 a m ∧ wrap1 a m < m := by
  unfold wrap1; split_ifs <;> omega

theorem wrap1_of_inbounds (a : Int) (m : Nat) (h1 : 0 ≤ a) (h2 : a < m) :
    wrap1 a m = a := by
  unfold wrap1; split_ifs <;> omega

theorem rowmajor_bounds (c r : Int) (W H : Nat)
    (hc0 : 0 ≤ c) (hc1 : c < W) (hr0 : 0 ≤ r) (hr1 : r < H) :
    0 ≤ r * W + c ∧ r * W + c < W * H := by
  constructor
  · positivity
  · nlinarith [mul_nonneg (by omega : (0:Int) ≤ (H:Int) - 1 - r)
      (by positivity : (0:Int) ≤ (W:Int))]

/-- `translate_to_1D` on in-range coordinates is the plain row-major index. -/
theorem translate_of_inbounds (col row : Int) (W H : Nat)
    (hc0 : 0 ≤ col) (hc1 : col < W) (hr0 : 0 ≤ row) (hr1 : row < H) :
    translate_to_1D col row W H = row * W + col := by
  rw [translate_eq_wrap1, wrap1_of_inbounds col W hc0 hc1,
    wrap1_of_inbounds row H hr0 hr1]

theorem list_getD_set_eq (l : List Int) (i : Nat) (v : Int) (h : i < l.length) :
    (l.set i v).getD i 0 = v := by
  simp [List.getD_eq_getElem?_getD, List.getElem?_set_self h]

theorem list_getD_set_ne (l : List Int) (i j : Nat) (v : Int) (h : j ≠ i) :
    (l.set i v).getD j 0 = l.getD j 0 := by
  simp [List.getD_eq_getElem?_getD, List.getElem?_set_ne (Ne.symm h)]

theorem count_live_neighbors_eq_moore (world : List Int) (x y : Int)
    (W H : Nat) :
    count_live_neighbors world x y W H = moore_live_count world x y W H := by
  have hx1 : ¬(x - 1 = x) := by omega
  have hx2 : ¬(x + 1 = x) := by omega
  have hy1 : ¬(y - 1 = y) := by omega
  have hy3 : ¬(y + 1 = y) := by omega
  have e1 : x + (-1 : Int) = x - 1 := by ring
  have e2 : x + (0 : Int) = x := by ring
  have f1 : y + (-1 : Int) = y - 1 := by ring
  have f2 : y + (0 : Int) = y := by ring
  unfold count_live_neighbors moore_live_count mooreOffsets
  simp only [List.foldl_cons, List.foldl_nil, List.countP_cons, List.countP_nil,
    decide_eq_true_eq, e1, e2, f1, f2, hx1, hx2, hy1, hy3, false_and, and_false,
    and_true, true_and, and_self, if_false, if_true, ite_false, ite_true]
  split_ifs <;> omega

theorem count_live_neighbors_le_eight (world : List Int) (x y : Int)
    (W H : Nat) :
    count_live_neighbors world x y W H ≤ 8 := by
  rw [count_live_neighbors_eq_moore]
  exact List.countP_le_length _

theorem wrap1_shift_ne (a : Int) (m : Nat) (hm : 2 ≤ m)
    (h0 : 0 ≤ a) (h1 : a < m) (d : Int) (hd : d = -1 ∨ d = 1) :
    wrap1 (a + d) m ≠ a := by
  unfold wrap1; rcases hd with h | h <;> subst h <;> split_ifs <;> omega

theorem rowmajor_emod (r c : Int) (W : Nat) (h0 : 0 ≤ c) (h1 : c < W) :
    (r * W + c) % W = c := by
  rw [mul_comm, add_comm, Int.add_mul_emod_self_left, Int.emod_eq_of_lt h0 h1]

theorem rowmajor_ne (c1 r1 c2 r2 : Int) (W : Nat)
    (hc10 : 0 ≤ c1) (hc11 : c1 < W) (hc20 : 0 ≤ c2) (hc21 : c2 < W)
    (hne : c1 ≠ c2 ∨ r1 ≠ r2) :
    r1 * W + c1 ≠ r2 * W + c2 := by
  intro heq
  have e1 : (r1 * W + c1) % W = c1 := rowmajor_emod r1 c1 W hc10 hc11
  have e2 : (r2 * W + c2) % W = c2 := rowmajor_emod r2 c2 W hc20 hc21
  have hc : c1 = c2 := by rw [← e1, ← e2, heq]
  have hW : (W : Int) ≠ 0 := by omega
  have hr : r1 = r2 := by
    have : r1 * W = r2 * W := by omega
    exact mul_right_cancel₀ hW this
  rcases hne with h | h <;> [exact h hc; exact h hr]

/-- On a grid at least 2 wide and 2 tall, every Moore-neighbourhood offset
of an in-range cell translates to an index different from the cell's own. -/
theorem neighbor_ne_center (x y dx dy : Int) (W H : Nat)
    (hW : 2 ≤ W) (hH : 2 ≤ H)
    (hx0 : 0 ≤ x) (hx1 : x < W) (hy0 : 0 ≤ y) (hy1 : y < H)
    (hdx : dx = -1 ∨ dx = 0 ∨ dx = 1) (hdy : dy = -1 ∨ dy = 0 ∨ dy = 1)
    (hne : ¬(dx = 0 ∧ dy = 0)) :
    (translate_to_1D (x + dx) (y + dy) W H).toNat ≠
      (translate_to_1D x y W H).toNat := by
  rw [translate_eq_wrap1, translate_eq_wrap1,
    wrap1_of_inbounds x W hx0 hx1, wrap1_of_inbounds y H hy0 hy1]
  have hcb := wrap1_bounds (x + dx) W (by omega) (by omega) (by omega)
  have hrb := wrap1_bounds (y + dy) H (by omega) (by omega) (by omega)
  have hmain : wrap1 (y + dy) H * W + wrap1 (x + dx) W ≠ y * W + x := by
    apply rowmajor_ne _ _ _ _ W hcb.1 hcb.2 hx0 hx1
    rcases hdx with h | h | h
    · exact Or.inl (by subst h; exact wrap1_shift_ne x W hW hx0 hx1 _ (Or.inl rfl))
    · subst h
      rcases hdy with h' | h' | h'
      · exact Or.inr (by subst h'; exact wrap1_shift_ne y H hH hy0 hy1 _ (Or.inl rfl))
      · exact absurd ⟨rfl, h'⟩ hne
      · exact Or.inr (by subst h'; exact wrap1_shift_ne y H hH hy0 hy1 _ (Or.inr rfl))
    · exact Or.inl (by subst h; exact wrap1_shift_ne x W hW hx0 hx1 _ (Or.inr rfl))
  have h1 : 0 ≤ wrap1 (y + dy) H * W + wrap1 (x + dx) W :=
    (rowmajor_bounds _ _ W H hcb.1 hcb.2 hrb.1 hrb.2).1
  have h2 : 0 ≤ y * W + x := (rowmajor_bounds x y W H hx0 hx1 hy0 hy1).1
  omega

/-- Changing only the centre cell of an in-range coordinate does not change
`count_live_neighbors` there, provided the grid is at least 2×2. -/
theorem count_live_neighbors_set_center (world : List Int) (x y : Int)
    (W H : Nat) (v : Int) (hW : 2 ≤ W) (hH : 2 ≤ H)
    (hx0 : 0 ≤ x) (hx1 : x < W) (hy0 : 0 ≤ y) (hy1 : y < H) :
    count_live_neighbors
        (world.set (translate_to_1D x y W H).toNat v) x y W H =
      count_live_neighbors world x y W H := by
  have hx1' : ¬(x - 1 = x) := by omega
  have hx2' : ¬(x + 1 = x) := by omega
  have hy1' : ¬(y - 1 = y) := by omega
  have hy3' : ¬(y + 1 = y) := by omega
  have em : x + (-1 : Int) = x - 1 := by ring
  have ep : y + (-1 : Int) = y - 1 := by ring
  have ne0 : ∀ dx dy : Int, dx = -1 ∨ dx = 0 ∨ dx = 1 →
      dy = -1 ∨ dy = 0 ∨ dy = 1 → ¬(dx = 0 ∧ dy = 0) →
      (world.set (translate_to_1D x y W H).toNat v).getD
          (translate_to_1D (x + dx) (y + dy) W H).toNat 0 =
        world.getD (translate_to_1D (x + dx) (y + dy) W H).toNat 0 := by
    intro dx dy hdx hdy hne
    exact list_getD_set_ne world _ _ v
      (neighbor_ne_center x y dx dy W H hW hH hx0 hx1 hy0 hy1 hdx hdy hne)
  have g11 := ne0 (-1) (-1) (by tauto) (by tauto) (by simp)
  have g12 := ne0 (-1) 0 (by tauto) (by tauto) (by simp)
  have g13 := ne0 (-1) 1 (by tauto) (by tauto) (by simp)
  have g21 := ne0 0 (-1) (by tauto) (by tauto) (by simp)
  have g23 := ne0 0 1 (by tauto) (by tauto) (by simp)
  have g31 := ne0 1 (-1) (by tauto) (by tauto) (by simp)
  have g32 := ne0 1 0 (by tauto) (by tauto) (by simp)
  have g33 := ne0 1 1 (by tauto) (by tauto) (by simp)
  rw [em] at g11 g12 g13
  rw [ep] at g11 g21 g31
  rw [show x + (0:Int) = x by ring] at g21 g23
  rw [show y + (0:Int) = y by ring] at g12 g32
  rw [show x + (1:Int) = x + 1 from rfl] at g31 g32 g33
  rw [show y + (1:Int) = y + 1 from rfl] at g13 g23 g33
  unfold count_live_neighbors
  simp only [List.foldl_cons, List.foldl_nil, g11, g12, g13, g21, g23, g31,
    g32, g33, and_self, true_and, and_true, ite_true, if_true]

theorem intRange_nil (lo hi : Int) (h : hi < lo) : intRange lo hi = [] := by
  unfold intRange
  rw [show (hi + 1 - lo).toNat = 0 by omega]
  rfl

theorem intRange_append (a b c : Int) (h1 : a ≤ b) (h2 : b ≤ c + 1) :
    intRange a (b - 1) ++ intRange b c = intRange a c := by
  unfold intRange
  have h3 : (c + 1 - a).toNat = (b - 1 + 1 - a).toNat + (c + 1 - b).toNat := by
    omega
  rw [h3, List.range_add, List.map_append, List.map_map]
  congr 1
  apply List.map_congr_left
  intro k hk
  simp only [Function.comp_apply]
  omega

theorem intRange_append2 (a b c : Int) (h1 : a ≤ b + 1) (h2 : b ≤ c) :
    intRange a b ++ intRange (b + 1) c = intRange a c := by
  have h := intRange_append a (b + 1) c (by omega) (by omega)
  rw [show b + 1 - 1 = b by ring] at h
  exact h

theorem mem_intRange (a lo hi : Int) :
    a ∈ intRange lo hi ↔ lo ≤ a ∧ a ≤ hi := by
  unfold intRange
  simp only [List.mem_map, List.mem_range]
  constructor
  · rintro ⟨k, hk, rfl⟩; omega
  · rintro ⟨h1, h2⟩; exact ⟨(a - lo).toNat, by omega, by omega⟩

theorem bandsAux_flat (n : Nat) : ∀ (rem : Nat) (cur : Int) (rpt : Nat),
    rem ≤ n →
    (bandsAux n rem cur rpt).flatMap (fun se => intRange se.1 se.2) =
      intRange cur (cur + n * rpt + rem - 1) := by
  induction n with
  | zero =>
    intro rem cur rpt hrem
    have h0 : rem = 0 := by omega
    subst h0
    simp only [bandsAux, List.flatMap_nil, Nat.cast_zero, zero_mul, add_zero]
    exact (intRange_nil cur (cur - 1) (by omega)).symm
  | succ n ih =>
    intro rem cur rpt hrem
    have hnn : (0 : Int) ≤ (n : Int) * rpt := by positivity
    by_cases h : rem > 0
    · rw [bandsAux, if_pos h, List.flatMap_cons,
        ih (rem - 1) (cur + rpt + 1) rpt (by omega)]
      dsimp only
      have hb : cur + (rpt : Int) + 1 + n * rpt + ((rem - 1 : Nat) : Int) - 1 =
          cur + ((n + 1 : Nat) : Int) * rpt + rem - 1 := by
        push_cast [Nat.cast_sub (by omega : 1 ≤ rem)]
        ring
      rw [hb]
      apply intRange_append2
      · omega
      · push_cast
        nlinarith
    · have h0 : rem = 0 := by omega
      subst h0
      rw [bandsAux, if_neg h, List.flatMap_cons,
        ih 0 (cur + rpt) rpt (by omega)]
      dsimp only
      have hb : cur + (rpt : Int) + n * rpt + ((0 : Nat) : Int) - 1 =
          cur + ((n + 1 : Nat) : Int) * rpt + ((0 : Nat) : Int) - 1 := by
        push_cast; ring
      rw [hb]
      apply intRange_append
      · omega
      · push_cast
        nlinarith

theorem bandsAux_length (n : Nat) : ∀ (rem : Nat) (cur : Int) (rpt : Nat),
    (bandsAux n rem cur rpt).length = n := by
  induction n with
  | zero => intro rem cur rpt; rfl
  | succ n ih =>
    intro rem cur rpt
    rw [bandsAux]
    split_ifs <;> simp [ih]

theorem bandsAux_sizes (n : Nat) : ∀ (rem : Nat) (cur : Int) (rpt : Nat),
    rem ≤ n →
    (bandsAux n rem cur rpt).map (fun se => se.2 - se.1 + 1) =
      List.replicate rem ((rpt : Int) + 1) ++
        List.replicate (n - rem) (rpt : Int) := by
  induction n with
  | zero =>
    intro rem cur rpt hrem
    have h0 : rem = 0 := by omega
    subst h0
    rfl
  | succ n ih =>
    intro rem cur rpt hrem
    by_cases h : rem > 0
    · obtain ⟨r, rfl⟩ : ∃ r, rem = r + 1 := ⟨rem - 1, by omega⟩
      rw [bandsAux, if_pos h, List.map_cons]
      simp only [Nat.add_sub_cancel]
      rw [ih r (cur + rpt + 1) rpt (by omega)]
      rw [List.replicate_succ, List.cons_append,
        show n + 1 - (r + 1) = n - r by omega]
      congr 1
      ring
    · have h0 : rem = 0 := by omega
      subst h0
      rw [bandsAux, if_neg h, List.map_cons, ih 0 (cur + rpt) rpt (by omega)]
      dsimp only
      simp only [Nat.sub_zero, List.replicate_zero, List.nil_append, List.replicate_succ]
      congr 1
      ring


/-- The rows of the bands of `run_threads` are exactly `0..H-1`, in order. -/
theorem mkBands_flat (H T : Nat) (hT : 1 ≤ T) :
    (mkBands H T).flatMap (fun se => intRange se.1 se.2) =
      intRange 0 ((H : Int) - 1) := by
  unfold mkBands
  rw [bandsAux_flat T (H % T) 0 (H / T) (le_of_lt (Nat.mod_lt H (by omega)))]
  congr 1
  have key : (T : Int) * ((H / T : Nat) : Int) + ((H % T : Nat) : Int) =
      (H : Int) := by exact_mod_cast Nat.div_add_mod H T
  linarith

theorem intRange_zero_eq_range (H : Nat) :
    intRange 0 ((H : Int) - 1) = (List.range H).map (fun (k : Nat) => (k : Int)) := by
  unfold intRange
  rw [show ((H : Int) - 1 + 1 - 0).toNat = H by omega]
  apply List.map_congr_left
  intro k _
  omega

theorem mkBands_length (H T : Nat) : (mkBands H T).length = T :=
  bandsAux_length T (H % T) 0 (H / T)

theorem mkBands_sizes (H T : Nat) (hT : 1 ≤ T) :
    (mkBands H T).map (fun se => se.2 - se.1 + 1) =
      List.replicate (H % T) (((H / T : Nat) : Int) + 1) ++
        List.replicate (T - H % T) ((H / T : Nat) : Int) :=
  bandsAux_sizes T (H % T) 0 (H / T) (le_of_lt (Nat.mod_lt H (by omega)))

/-- Folding `update_world` over a list of bands equals folding `update_row`
over the concatenation of their row ranges (all bands read the same
snapshot `c`). -/
theorem band_fold_eq_row_fold (c : List Int) (W H : Nat)
    (bands : List (Int × Int)) : ∀ w : List Int,
    bands.foldl (fun w se => update_world w c W H se.1 se.2) w =
      (bands.flatMap (fun se => intRange se.1 se.2)).foldl
        (fun w y => update_row c W H w y) w := by
  induction bands with
  | nil => intro w; rfl
  | cons hd tl ih =>
    intro w
    rw [List.foldl_cons, List.flatMap_cons, List.foldl_append, ih]
    rfl

/-- One generation with any number `T ≥ 1` of workers equals one whole-grid
`update_world` pass reading the snapshot taken at the start of the
generation. -/
theorem run_generation_eq_seq (T W H : Nat) (hT : 1 ≤ T) (w : List Int) :
    run_generation T W H w = update_world w w W H 0 ((H : Int) - 1) := by
  unfold run_generation
  rw [band_fold_eq_row_fold, mkBands_flat H T hT]
  rfl

/-- The simulation result does not depend on the worker count. -/
theorem simulate_eq_one (T W H : Nat) (hT : 1 ≤ T) :
    ∀ (k : Nat) (w : List Int), simulate T W H k w = simulate 1 W H k w := by
  intro k
  induction k with
  | zero => intro w; rfl
  | succ k ih =>
    intro w
    rw [simulate, simulate, ih, run_generation_eq_seq T W H hT,
      run_generation_eq_seq 1 W H (le_refl 1)]


theorem update_cell_getD_ne (curr next : List Int) (x y : Int) (W H : Nat)
    (j : Nat) (hj : j ≠ (translate_to_1D x y W H).toNat) :
    (update_cell curr next x y W H).getD j 0 = next.getD j 0 := by
  simp only [update_cell]
  split_ifs
  · rw [list_getD_set_ne _ _ _ _ hj]
  · rw [list_getD_set_ne _ _ _ _ hj]
  · rfl

theorem foldl_update_cell_frame (c : List Int) (W H : Nat) (y : Int)
    (xs : List Int) (j : Nat)
    (h : ∀ x ∈ xs, (translate_to_1D x y W H).toNat ≠ j) :
    ∀ w : List Int,
      (xs.foldl (fun w x => update_cell c w x y W H) w).getD j 0 =
        w.getD j 0 := by
  induction xs with
  | nil => intro w; rfl
  | cons hd tl ih =>
    intro w
    rw [List.foldl_cons, ih (fun x hx => h x (List.mem_cons_of_mem _ hx)),
      update_cell_getD_ne c w hd y W H j (Ne.symm (h hd (List.mem_cons_self _ _)))]

theorem foldl_update_row_frame (c : List Int) (W H : Nat)
    (rows : List Int) (j : Nat)
    (h : ∀ y ∈ rows, ∀ x ∈ (List.range W).map (Int.ofNat),
      (translate_to_1D x y W H).toNat ≠ j) :
    ∀ w : List Int,
      (rows.foldl (fun w y => update_row c W H w y) w).getD j 0 =
        w.getD j 0 := by
  induction rows with
  | nil => intro w; rfl
  | cons hd tl ih =>
    intro w
    rw [List.foldl_cons, ih (fun y hy => h y (List.mem_cons_of_mem _ hy))]
    exact foldl_update_cell_frame c W H hd _ j
      (h hd (List.mem_cons_self _ _)) w

/-- `update_world` on a band whose rows lie inside `[0,H)` leaves every
index outside the band's row-major rectangle unchanged. -/
theorem update_world_frame (w c : List Int) (W H : Nat) (s e : Int)
    (hs : 0 ≤ s) (he : e ≤ (H : Int) - 1) (j : Nat)
    (hj : ¬ ∃ yy xx : Nat,
      s ≤ (yy : Int) ∧ (yy : Int) ≤ e ∧ xx < W ∧ j = yy * W + xx) :
    (update_world w c W H s e).getD j 0 = w.getD j 0 := by
  apply foldl_update_row_frame
  intro y hy x hx
  rw [mem_intRange] at hy
  obtain ⟨k, hk, rfl⟩ := List.mem_map.mp hx
  rw [List.mem_range] at hk
  rw [show Int.ofNat k = ((k : Nat) : Int) from rfl]
  rw [translate_of_inbounds (k : Int) y W H (by positivity)
    (by exact_mod_cast hk) (by omega) (by omega)]
  intro heq
  apply hj
  have hy0 : (0 : Int) ≤ y := by omega
  have h0 : (0 : Int) ≤ y * W + k := by positivity
  refine ⟨y.toNat, k, by omega, by omega, hk, ?_⟩
  have hcast : ((y.toNat * W + k : Nat) : Int) = y * W + (k : Int) := by
    push_cast [Int.toNat_of_nonneg hy0]
    ring
  omega

theorem intRange_nodup (lo hi : Int) : (intRange lo hi).Nodup := by
  unfold intRange
  refine List.Nodup.map ?_ (List.nodup_range _)
  intro a b hab
  have hab' : lo + (a : Int) = lo + (b : Int) := hab
  omega

theorem mkBands_pairwise_disjoint (H T : Nat) (hT : 1 ≤ T) :
    List.Pairwise
      (fun a b => List.Disjoint (intRange a.1 a.2) (intRange b.1 b.2))
      (mkBands H T) := by
  have hnd : ((mkBands H T).flatMap (fun se => intRange se.1 se.2)).Nodup := by
    rw [mkBands_flat H T hT]
    exact intRange_nodup 0 ((H : Int) - 1)
  exact (List.nodup_flatMap.mp hnd).2

theorem nat_rowmajor_inj (y1 x1 y2 x2 W : Nat) (hW : 0 < W)
    (hx1 : x1 < W) (hx2 : x2 < W) (h : y1 * W + x1 = y2 * W + x2) :
    y1 = y2 ∧ x1 = x2 := by
  have d1 : (y1 * W + x1) / W = y1 := by
    rw [show y1 * W + x1 = x1 + W * y1 by ring,
      Nat.add_mul_div_left _ _ hW, Nat.div_eq_of_lt hx1, Nat.zero_add]
  have d2 : (y2 * W + x2) / W = y2 := by
    rw [show y2 * W + x2 = x2 + W * y2 by ring,
      Nat.add_mul_div_left _ _ hW, Nat.div_eq_of_lt hx2, Nat.zero_add]
  have hy : y1 = y2 := by rw [← d1, ← d2, h]
  subst hy
  exact ⟨rfl, by omega⟩

/-- No grid index belongs to the row-major write rectangles of two distinct
bands of the partition. -/
theorem mkBands_write_sets_disjoint (W H T : Nat) (hW : 1 ≤ W) (hT : 1 ≤ T)
    (i1 i2 : Nat) (h12 : i1 < i2) (h2T : i2 < T)
    (se1 se2 : Int × Int)
    (hse1 : (mkBands H T)[i1]? = some se1)
    (hse2 : (mkBands H T)[i2]? = some se2) (j : Nat) :
    ¬((∃ yy xx : Nat,
        se1.1 ≤ (yy : Int) ∧ (yy : Int) ≤ se1.2 ∧ xx < W ∧ j = yy * W + xx) ∧
      (∃ yy xx : Nat,
        se2.1 ≤ (yy : Int) ∧ (yy : Int) ≤ se2.2 ∧ xx < W ∧ j = yy * W + xx)) := by
  rintro ⟨⟨y1, x1, hy1a, hy1b, hx1, hj1⟩, ⟨y2, x2, hy2a, hy2b, hx2, hj2⟩⟩
  have hlen : (mkBands H T).length = T := mkBands_length H T
  have hi1 : i1 < (mkBands H T).length := by omega
  have hi2 : i2 < (mkBands H T).length := by omega
  have he1 : (mkBands H T)[i1] = se1 := by
    have := List.getElem?_eq_getElem hi1
    rw [this] at hse1
    exact Option.some_injective _ hse1
  have he2 : (mkBands H T)[i2] = se2 := by
    have := List.getElem?_eq_getElem hi2
    rw [this] at hse2
    exact Option.some_injective _ hse2
  have hdisj := List.pairwise_iff_getElem.mp
    (mkBands_pairwise_disjoint H T hT) i1 i2 hi1 hi2 h12
  rw [he1, he2] at hdisj
  obtain ⟨hy, hx⟩ := nat_rowmajor_inj y1 x1 y2 x2 W (by omega) hx1 hx2
    (by omega)
  subst hy
  exact hdisj ((mem_intRange _ _ _).mpr ⟨hy1a, hy1b⟩)
    ((mem_intRange _ _ _).mpr ⟨hy2a, hy2b⟩)

theorem bandsAux_rpt_zero (n : Nat) : ∀ (rem : Nat) (cur : Int), rem ≤ n →
    bandsAux n rem cur 0 =
      (List.range rem).map
        (fun (j : Nat) => ((cur + (j : Int)), (cur + (j : Int)))) ++
        List.replicate (n - rem) (cur + (rem : Int), cur + (rem : Int) - 1) := by
  induction n with
  | zero =>
    intro rem cur h
    have h0 : rem = 0 := by omega
    subst h0
    rfl
  | succ n ih =>
    intro rem cur h
    by_cases hr : rem > 0
    · obtain ⟨r, rfl⟩ : ∃ r, rem = r + 1 := ⟨rem - 1, by omega⟩
      rw [bandsAux, if_pos hr]
      simp only [Nat.add_sub_cancel, Nat.cast_zero, add_zero]
      rw [ih r (cur + 1) (by omega)]
      rw [List.range_succ_eq_map, List.map_cons, List.cons_append]
      congr 1
      · simp
      · congr 1
        · rw [List.map_map]
          apply List.map_congr_left
          intro j _
          simp only [Function.comp_apply, Prod.mk.injEq]
          constructor <;> push_cast <;> ring
        · rw [show n + 1 - (r + 1) = n - r by omega]
          congr 1
          simp only [Prod.mk.injEq]
          constructor <;> push_cast <;> ring
    · have h0 : rem = 0 := by omega
      subst h0
      rw [bandsAux, if_neg hr]
      simp only [Nat.cast_zero, add_zero]
      rw [ih 0 cur (by omega)]
      simp only [List.range_zero, List.map_nil, List.nil_append, Nat.sub_zero,
        List.replicate_succ, Nat.cast_zero, add_zero]

/-- With more workers than rows (`rpt = 0`), the first `H` bands are the
single rows `(i,i)` and every trailing band is the empty `(H, H-1)`. -/
theorem mkBands_T_gt_H (H T : Nat) (h : H < T) :
    mkBands H T =
      (List.range H).map (fun (j : Nat) => (((j : Int)), ((j : Int)))) ++
        List.replicate (T - H) ((H : Int), (H : Int) - 1) := by
  unfold mkBands
  rw [Nat.mod_eq_of_lt h, Nat.div_eq_of_lt h,
    bandsAux_rpt_zero T H 0 (by omega)]
  simp only [zero_add]

theorem getElem?_mkBands_lt (H T i : Nat) (hT : H < T) (hi : i < H) :
    (mkBands H T)[i]? = some ((i : Int), (i : Int)) := by
  rw [mkBands_T_gt_H H T hT, List.getElem?_append,
    if_pos (by simpa using hi), List.getElem?_map, List.getElem?_range hi]
  rfl

theorem getElem?_mkBands_ge (H T i : Nat) (hT : H < T) (hi1 : H ≤ i)
    (hi2 : i < T) :
    (mkBands H T)[i]? = some ((H : Int), (H : Int) - 1) := by
  rw [mkBands_T_gt_H H T hT, List.getElem?_append,
    if_neg (by simpa using Nat.not_lt.mpr hi1), List.getElem?_replicate]
  simp only [List.length_map, List.length_range]
  rw [if_pos (by omega)]

/-- `update_world` on an empty band (`start_row > end_row`) writes nothing. -/
theorem update_world_empty (w c : List Int) (W H : Nat) (s e : Int)
    (h : e < s) : update_world w c W H s e = w := by
  unfold update_world
  rw [intRange_nil s e h]
  rfl


/-- No `getopt` case ever writes the variable `p`. -/
theorem foldl_applyOpt_p : ∀ (opts : List Opt) (cfg : MainConfig),
    (opts.foldl applyOpt cfg).p = cfg.p := by
  intro opts
  induction opts with
  | nil => intro cfg; rfl
  | cons hd tl ih =>
    intro cfg
    rw [List.foldl_cons, ih]
    cases hd <;> rfl

theorem read_pairs_encode (ps : List (Int × Int)) :
    ∀ (rest : List (Option Int)) (world : List Int) (cols rows : Nat),
    read_pairs ps.length (encodePairs ps ++ rest) world cols rows =
      some (setPairs world ps cols rows) := by
  induction ps with
  | nil => intro rest world cols rows; rfl
  | cons p ps ih =>
    intro rest world cols rows
    show read_pairs (ps.length + 1)
        (some p.1 :: some p.2 :: (encodePairs ps ++ rest)) world cols rows = _
    rw [read_pairs]
    show read_pairs ps.length (encodePairs ps ++ rest)
        (world.set (translate_to_1D p.1 p.2 cols rows).toNat 1) cols rows = _
    rw [ih]
    rfl

theorem read_pairs_too_many (ps : List (Int × Int)) :
    ∀ (world : List Int) (cols rows : Nat),
    read_pairs (ps.length + 1) (encodePairs ps) world cols rows = none := by
  induction ps with
  | nil => intro world cols rows; rfl
  | cons p ps ih =>
    intro world cols rows
    show read_pairs (ps.length + 1 + 1)
        (some p.1 :: some p.2 :: encodePairs ps) world cols rows = none
    rw [read_pairs]
    exact ih _ cols rows

theorem setPairs_length (ps : List (Int × Int)) :
    ∀ (world : List Int) (cols rows : Nat),
    (setPairs world ps cols rows).length = world.length := by
  induction ps with
  | nil => intro world cols rows; rfl
  | cons p ps ih =>
    intro world cols rows
    show (setPairs (world.set _ 1) ps cols rows).length = _
    rw [ih, List.length_set]

theorem setPairs_getD (ps : List (Int × Int)) :
    ∀ (world : List Int) (cols rows : Nat) (j : Nat), j < world.length →
    ((setPairs world ps cols rows).getD j 0 = 1 ↔
      (world.getD j 0 = 1 ∨
        ∃ p ∈ ps, (translate_to_1D p.1 p.2 cols rows).toNat = j)) := by
  induction ps with
  | nil =>
    intro world cols rows j hj
    simp [setPairs]
  | cons p ps ih =>
    intro world cols rows j hj
    have hstep : setPairs world (p :: ps) cols rows =
        setPairs (world.set (translate_to_1D p.1 p.2 cols rows).toNat 1) ps
          cols rows := rfl
    rw [hstep, ih _ cols rows j (by rw [List.length_set]; exact hj)]
    by_cases hij : (translate_to_1D p.1 p.2 cols rows).toNat = j
    · subst hij
      rw [list_getD_set_eq _ _ _ hj]
      simp only [List.mem_cons]
      constructor
      · intro _; exact Or.inr ⟨p, Or.inl rfl, rfl⟩
      · intro _; exact Or.inl (by trivial)
    · rw [list_getD_set_ne _ _ _ _ (Ne.symm hij)]
      simp only [List.mem_cons]
      constructor
      · rintro (h | ⟨q, hq, hqj⟩)
        · exact Or.inl h
        · exact Or.inr ⟨q, Or.inr hq, hqj⟩
      · rintro (h | ⟨q, hq | hq, hqj⟩)
        · exact Or.inl h
        · subst hq; exact absurd hqj hij
        · exact Or.inr ⟨q, hq, hqj⟩

theorem getD_set_cases (l : List Int) (i j : Nat) (v : Int) :
    (l.set i v).getD j 0 = l.getD j 0 ∨ (l.set i v).getD j 0 = v := by
  by_cases h : j = i
  · subst h
    by_cases hl : j < l.length
    · exact Or.inr (list_getD_set_eq _ _ _ hl)
    · rw [List.set_eq_of_length_le (by omega)]
      exact Or.inl rfl
  · exact Or.inl (list_getD_set_ne _ _ _ _ h)

theorem setPairs_getD_cases (ps : List (Int × Int)) :
    ∀ (world : List Int) (cols rows : Nat) (j : Nat),
    (setPairs world ps cols rows).getD j 0 = world.getD j 0 ∨
      (setPairs world ps cols rows).getD j 0 = 1 := by
  induction ps with
  | nil => intro world cols rows j; exact Or.inl rfl
  | cons p ps ih =>
    intro world cols rows j
    have hstep : setPairs world (p :: ps) cols rows =
        setPairs (world.set (translate_to_1D p.1 p.2 cols rows).toNat 1) ps
          cols rows := rfl
    rw [hstep]
    rcases ih (world.set (translate_to_1D p.1 p.2 cols rows).toNat 1)
        cols rows j with h | h
    · rcases getD_set_cases world (translate_to_1D p.1 p.2 cols rows).toNat j 1
        with h2 | h2
      · exact Or.inl (h.trans h2)
      · exact Or.inr (h.trans h2)
    · exact Or.inr h

theorem replicate_getD_zero (n j : Nat) :
    (List.replicate n (0 : Int)).getD j 0 = 0 := by
  rw [List.getD_eq_getElem?_getD, List.getElem?_replicate]
  split_ifs <;> rfl

end GoL

/-- C4: for `W,H > 0` and coordinates within one width/height of range,
`translate_to_1D col row W H` lies in `[0, W*H)` and equals `row'*W + col'`
for coordinates `col',row'` obtained from `col,row` by at most one shift of
`±W` resp. `±H` into range; moreover `translate_to_1D (-1) 0 = translate_to_1D (W-1) 0`
and `translate_to_1D W 0 = translate_to_1D 0 0`. -/
theorem C4_translate_to_1D_wraparound (W H : Nat) (col row : Int)
    (hW : 0 < W) (hH : 0 < H)
    (hc1 : -(W : Int) ≤ col) (hc2 : col < 2 * W)
    (hr1 : -(H : Int) ≤ row) (hr2 : row < 2 * H) :
    (0 ≤ GoL.translate_to_1D col row W H ∧
      GoL.translate_to_1D col row W H < W * H) ∧
    (∃ col' row' : Int,
      0 ≤ col' ∧ col' < W ∧ 0 ≤ row' ∧ row' < H ∧
      (col' = col ∨ col' = col + W ∨ col' = col - W) ∧
      (row' = row ∨ row' = row + H ∨ row' = row - H) ∧
      GoL.translate_to_1D col row W H = row' * W + col') ∧
    (GoL.translate_to_1D (-1) 0 W H = GoL.translate_to_1D ((W : Int) - 1) 0 W H ∧
      GoL.translate_to_1D (W : Int) 0 W H = GoL.translate_to_1D 0 0 W H) := by
  obtain ⟨hcl, hcu⟩ := GoL.wrap1_bounds col W hW hc1 hc2
  obtain ⟨hrl, hru⟩ := GoL.wrap1_bounds row H hH hr1 hr2
  obtain ⟨hl, hu⟩ := GoL.rowmajor_bounds (GoL.wrap1 col W) (GoL.wrap1 row H) W H
    hcl hcu hrl hru
  refine ⟨⟨by rw [GoL.translate_eq_wrap1]; exact hl,
           by rw [GoL.translate_eq_wrap1]; exact hu⟩,
    ⟨GoL.wrap1 col W, GoL.wrap1 row H, hcl, hcu, hrl, hru, ?_, ?_,
      GoL.translate_eq_wrap1 col row W H⟩, ?_, ?_⟩
  · unfold GoL.wrap1; split_ifs <;> omega
  · unfold GoL.wrap1; split_ifs <;> omega
  · rw [GoL.translate_eq_wrap1, GoL.translate_eq_wrap1]
    unfold GoL.wrap1; split_ifs <;> omega
  · rw [GoL.translate_eq_wrap1, GoL.translate_eq_wrap1]
    unfold GoL.wrap1; split_ifs <;> omega

/-- Witness for C4 at `W = 4`, `H = 3`, `col = -2`, `row = 5`. -/
theorem C4_translate_to_1D_wraparound_witness :
    0 < 4 ∧ 0 < 3 ∧ -(4 : Int) ≤ -2 ∧ (-2 : Int) < 2 * 4 ∧
      -(3 : Int) ≤ 5 ∧ (5 : Int) < 2 * 3 ∧
    ((0 ≤ GoL.translate_to_1D (-2) 5 4 3 ∧
        GoL.translate_to_1D (-2) 5 4 3 < 4 * 3) ∧
      (∃ col' row' : Int,
        0 ≤ col' ∧ col' < 4 ∧ 0 ≤ row' ∧ row' < 3 ∧
        (col' = -2 ∨ col' = -2 + 4 ∨ col' = -2 - 4) ∧
        (row' = 5 ∨ row' = 5 + 3 ∨ row' = 5 - 3) ∧
        GoL.translate_to_1D (-2) 5 4 3 = row' * 4 + col') ∧
      (GoL.translate_to_1D (-1) 0 4 3 = GoL.translate_to_1D ((4 : Int) - 1) 0 4 3 ∧
        GoL.translate_to_1D (4 : Int) 0 4 3 = GoL.translate_to_1D 0 0 4 3)) :=
  ⟨by decide, by decide, by decide, by decide, by decide, by decide,
    C4_translate_to_1D_wraparound 4 3 (-2) 5 (by decide) (by decide)
      (by decide) (by decide) (by decide) (by decide)⟩


/-- C7 (amended): on grids at least 2×2 and for in-range `(x,y)`,
`count_live_neighbors` is at most 8, equals the count over the 8 translated
Moore-neighbourhood offsets, and never counts the centre cell (changing only
the centre cell leaves the count unchanged).  The original claim's "for every
grid" fails on 1-wide or 1-tall grids, where a wrapped offset lands on the
centre cell. -/
theorem C7_count_live_neighbors_spec (world : List Int) (x y : Int)
    (W H : Nat) (hW : 2 ≤ W) (hH : 2 ≤ H)
    (hx0 : 0 ≤ x) (hx1 : x < W) (hy0 : 0 ≤ y) (hy1 : y < H) :
    GoL.count_live_neighbors world x y W H ≤ 8 ∧
    GoL.count_live_neighbors world x y W H = GoL.moore_live_count world x y W H ∧
    ∀ v : Int,
      GoL.count_live_neighbors
          (world.set (GoL.translate_to_1D x y W H).toNat v) x y W H =
        GoL.count_live_neighbors world x y W H :=
  ⟨GoL.count_live_neighbors_le_eight world x y W H,
   GoL.count_live_neighbors_eq_moore world x y W H,
   fun v => GoL.count_live_neighbors_set_center world x y W H v hW hH
     hx0 hx1 hy0 hy1⟩

/-- C7 counterexample: on the 1×3 grid `[1,0,0]` whose only live cell is the
centre `(0,0)` itself, `count_live_neighbors` returns 2 (the wrapped offsets
`(-1,0)` and `(1,0)` both land on the centre), and clearing only the centre
cell changes the count to 0 — so the centre cell is counted. -/
theorem C7_counterexample :
    GoL.count_live_neighbors [1, 0, 0] 0 0 1 3 = 2 ∧
    GoL.count_live_neighbors
        (([1, 0, 0] : List Int).set (GoL.translate_to_1D 0 0 1 3).toNat 0)
        0 0 1 3 = 0 ∧
    ¬ (GoL.count_live_neighbors
          (([1, 0, 0] : List Int).set (GoL.translate_to_1D 0 0 1 3).toNat 0)
          0 0 1 3 =
        GoL.count_live_neighbors [1, 0, 0] 0 0 1 3) := by
  decide

/-- Witness for C7 at the 2×2 grid `[1,1,0,0]` and cell `(0,0)`. -/
theorem C7_count_live_neighbors_spec_witness :
    (2 ≤ 2) ∧ ((0 : Int) ≤ 0) ∧ ((0 : Int) < 2) ∧
    (GoL.count_live_neighbors [1, 1, 0, 0] 0 0 2 2 ≤ 8 ∧
     GoL.count_live_neighbors [1, 1, 0, 0] 0 0 2 2 =
       GoL.moore_live_count [1, 1, 0, 0] 0 0 2 2 ∧
     ∀ v : Int,
       GoL.count_live_neighbors
           (([1, 1, 0, 0] : List Int).set
             (GoL.translate_to_1D 0 0 2 2).toNat v) 0 0 2 2 =
         GoL.count_live_neighbors [1, 1, 0, 0] 0 0 2 2) :=
  ⟨by decide, by decide, by decide,
   C7_count_live_neighbors_spec [1, 1, 0, 0] 0 0 2 2 (by decide) (by decide)
     (by decide) (by decide) (by decide) (by decide)⟩

/-- C1: when the next grid still holds the previous generation's value of the
cell (as it does in every generation, since the snapshot is a fresh copy of
the live grid) and the cell's state is a proper ALIVE/DEAD value, the cell's
state after `update_cell` is exactly the B3/S23 rule of its previous state
and its live-neighbour count. -/
theorem C1_update_cell_b3s23 (curr next : List Int) (x y : Int) (W H : Nat)
    (hlen : (GoL.translate_to_1D x y W H).toNat < next.length)
    (hprev : next.getD (GoL.translate_to_1D x y W H).toNat 0 =
      curr.getD (GoL.translate_to_1D x y W H).toNat 0)
    (hstate : curr.getD (GoL.translate_to_1D x y W H).toNat 0 = 0 ∨
      curr.getD (GoL.translate_to_1D x y W H).toNat 0 = 1) :
    (GoL.update_cell curr next x y W H).getD
        (GoL.translate_to_1D x y W H).toNat 0 =
      GoL.b3s23 (curr.getD (GoL.translate_to_1D x y W H).toNat 0)
        (GoL.count_live_neighbors curr x y W H) := by
  simp only [GoL.update_cell, GoL.b3s23]
  split_ifs
  all_goals try rw [GoL.list_getD_set_eq _ _ _ hlen]
  all_goals try rw [hprev]
  all_goals omega

/-- Witness for C1: the live cell `(0,0)` of the 2×2 grid `[1,1,1,0]` has 4
live neighbours (with wraparound multiplicity) and dies. -/
theorem C1_update_cell_b3s23_witness :
    ((GoL.translate_to_1D 0 0 2 2).toNat < ([1, 1, 1, 0] : List Int).length) ∧
    (([1, 1, 1, 0] : List Int).getD (GoL.translate_to_1D 0 0 2 2).toNat 0 =
      ([1, 1, 1, 0] : List Int).getD (GoL.translate_to_1D 0 0 2 2).toNat 0) ∧
    (([1, 1, 1, 0] : List Int).getD (GoL.translate_to_1D 0 0 2 2).toNat 0 = 0 ∨
      ([1, 1, 1, 0] : List Int).getD (GoL.translate_to_1D 0 0 2 2).toNat 0 = 1) ∧
    ((GoL.update_cell [1, 1, 1, 0] [1, 1, 1, 0] 0 0 2 2).getD
        (GoL.translate_to_1D 0 0 2 2).toNat 0 =
      GoL.b3s23 (([1, 1, 1, 0] : List Int).getD
          (GoL.translate_to_1D 0 0 2 2).toNat 0)
        (GoL.count_live_neighbors [1, 1, 1, 0] 0 0 2 2)) :=
  ⟨by decide, by decide, by decide,
   C1_update_cell_b3s23 [1, 1, 1, 0] [1, 1, 1, 0] 0 0 2 2 (by decide)
     (by decide) (by decide)⟩

/-- C10: `update_cell` modifies at most the single cell of `next` at index
`translate_to_1D x y W H` (the embedding is pure, so `curr` is unmodified by
construction), and in the no-write cases — ALIVE with exactly 2 neighbours,
or DEAD (state ≠ 1) with neighbour count ≠ 3 — `next` is returned entirely
unchanged. -/
theorem C10_update_cell_frame (curr next : List Int) (x y : Int) (W H : Nat) :
    (∀ j : Nat, j ≠ (GoL.translate_to_1D x y W H).toNat →
      (GoL.update_cell curr next x y W H).getD j 0 = next.getD j 0) ∧
    (((curr.getD (GoL.translate_to_1D x y W H).toNat 0 = 1 ∧
        GoL.count_live_neighbors curr x y W H = 2) ∨
      (curr.getD (GoL.translate_to_1D x y W H).toNat 0 ≠ 1 ∧
        GoL.count_live_neighbors curr x y W H ≠ 3)) →
      GoL.update_cell curr next x y W H = next) := by
  constructor
  · intro j hj
    simp only [GoL.update_cell]
    split_ifs
    · rw [GoL.list_getD_set_ne _ _ _ _ hj]
    · rw [GoL.list_getD_set_ne _ _ _ _ hj]
    · rfl
  · intro h
    simp only [GoL.update_cell]
    split_ifs with hA hB
    · exfalso; omega
    · exfalso; omega
    · rfl

/-- Witness for C10 at the 2×2 grid `[1,1,0,0]`, cell `(0,0)` (ALIVE with 2
live neighbours: a no-write case), next grid `[0,1,1,0]`. -/
theorem C10_update_cell_frame_witness :
    ((5 : Nat) ≠ (GoL.translate_to_1D 0 0 2 2).toNat ∧
     (GoL.update_cell [1, 1, 0, 0] [0, 1, 1, 0] 0 0 2 2).getD 5 0 =
       ([0, 1, 1, 0] : List Int).getD 5 0) ∧
    (((([1, 1, 0, 0] : List Int).getD (GoL.translate_to_1D 0 0 2 2).toNat 0 = 1 ∧
        GoL.count_live_neighbors [1, 1, 0, 0] 0 0 2 2 = 2) ∨
      (([1, 1, 0, 0] : List Int).getD (GoL.translate_to_1D 0 0 2 2).toNat 0 ≠ 1 ∧
        GoL.count_live_neighbors [1, 1, 0, 0] 0 0 2 2 ≠ 3)) ∧
     GoL.update_cell [1, 1, 0, 0] [0, 1, 1, 0] 0 0 2 2 = [0, 1, 1, 0]) :=
  ⟨⟨by decide,
    (C10_update_cell_frame [1, 1, 0, 0] [0, 1, 1, 0] 0 0 2 2).1 5 (by decide)⟩,
   ⟨Or.inl ⟨by decide, by decide⟩,
    (C10_update_cell_frame [1, 1, 0, 0] [0, 1, 1, 0] 0 0 2 2).2
      (Or.inl ⟨by decide, by decide⟩)⟩⟩

/-- C2: for every `H ≥ 1` and `T ≥ 1`, the bands `run_threads` computes
(one per worker, `T` in total) cover the rows `[0,H)` exactly once, in
increasing row order with no gaps and no overlaps; the first `H mod T`
workers receive bands of `H div T + 1` rows and the rest bands of
`H div T` rows, so sizes differ by at most 1 with the larger bands first. -/
theorem C2_partition_bands (H T : Nat) (hH : 1 ≤ H) (hT : 1 ≤ T) :
    (GoL.mkBands H T).length = T ∧
    (GoL.mkBands H T).flatMap (fun se => GoL.intRange se.1 se.2) =
      (List.range H).map (fun (k : Nat) => (k : Int)) ∧
    (GoL.mkBands H T).map (fun se => se.2 - se.1 + 1) =
      List.replicate (H % T) (((H / T : Nat) : Int) + 1) ++
        List.replicate (T - H % T) ((H / T : Nat) : Int) :=
  ⟨GoL.mkBands_length H T,
   by rw [GoL.mkBands_flat H T hT, GoL.intRange_zero_eq_range],
   GoL.mkBands_sizes H T hT⟩

/-- Witness for C2 at `H = 5`, `T = 3` (bands `(0,1) (2,3) (4,4)`). -/
theorem C2_partition_bands_witness :
    1 ≤ 5 ∧ 1 ≤ 3 ∧
    ((GoL.mkBands 5 3).length = 3 ∧
     (GoL.mkBands 5 3).flatMap (fun se => GoL.intRange se.1 se.2) =
       (List.range 5).map (fun (k : Nat) => (k : Int)) ∧
     (GoL.mkBands 5 3).map (fun se => se.2 - se.1 + 1) =
       List.replicate (5 % 3) (((5 / 3 : Nat) : Int) + 1) ++
         List.replicate (3 - 5 % 3) ((5 / 3 : Nat) : Int)) :=
  ⟨by decide, by decide, C2_partition_bands 5 3 (by decide) (by decide)⟩

/-- C3: for every initial grid `G`, generation count `k` and worker count
`T ≥ 1`, the simulation (snapshot copy, then per-band update, each
generation) run with `T` workers produces the same final grid as with 1
worker; equivalently, one generation over the bands of the partition equals
one `update_world` pass over the single band `[0,H)`. -/
theorem C3_sequential_parallel_equivalence (W H T k : Nat) (G : List Int)
    (hT : 1 ≤ T) :
    GoL.simulate T W H k G = GoL.simulate 1 W H k G ∧
    GoL.run_generation T W H G = GoL.update_world G G W H 0 ((H : Int) - 1) :=
  ⟨GoL.simulate_eq_one T W H hT k G, GoL.run_generation_eq_seq T W H hT G⟩

/-- Witness for C3: a glider-less 2×3 grid, 2 turns, 3 workers. -/
theorem C3_sequential_parallel_equivalence_witness :
    1 ≤ 3 ∧
    (GoL.simulate 3 2 3 2 [1, 1, 0, 0, 1, 0] =
        GoL.simulate 1 2 3 2 [1, 1, 0, 0, 1, 0] ∧
      GoL.run_generation 3 2 3 [1, 1, 0, 0, 1, 0] =
        GoL.update_world [1, 1, 0, 0, 1, 0] [1, 1, 0, 0, 1, 0] 2 3 0
          ((3 : Int) - 1)) :=
  ⟨by decide,
   C3_sequential_parallel_equivalence 2 3 3 2 [1, 1, 0, 0, 1, 0] (by decide)⟩

/-- C5: within one generation, `update_world` on a band `[s,e]` of rows
inside `[0,H)` writes only indices in `{ y*W + x : s ≤ y ≤ e, 0 ≤ x < W }`
(every other index of the live grid keeps its value), and for two distinct
workers of the same partition these write sets are disjoint: no cell index
lies in both bands' rectangles. -/
theorem C5_disjoint_write_sets (W H T : Nat) (hW : 1 ≤ W) (hT : 1 ≤ T) :
    (∀ (w c : List Int) (s e : Int), 0 ≤ s → e ≤ (H : Int) - 1 →
      ∀ j : Nat,
        (¬ ∃ yy xx : Nat,
          s ≤ (yy : Int) ∧ (yy : Int) ≤ e ∧ xx < W ∧ j = yy * W + xx) →
        (GoL.update_world w c W H s e).getD j 0 = w.getD j 0) ∧
    (∀ i1 i2 : Nat, i1 < i2 → i2 < T → ∀ se1 se2 : Int × Int,
      (GoL.mkBands H T)[i1]? = some se1 →
      (GoL.mkBands H T)[i2]? = some se2 →
      ∀ j : Nat,
        ¬((∃ yy xx : Nat,
            se1.1 ≤ (yy : Int) ∧ (yy : Int) ≤ se1.2 ∧ xx < W ∧
              j = yy * W + xx) ∧
          (∃ yy xx : Nat,
            se2.1 ≤ (yy : Int) ∧ (yy : Int) ≤ se2.2 ∧ xx < W ∧
              j = yy * W + xx))) :=
  ⟨fun w c s e hs he j hj => GoL.update_world_frame w c W H s e hs he j hj,
   fun i1 i2 h12 h2T se1 se2 hse1 hse2 j =>
     GoL.mkBands_write_sets_disjoint W H T hW hT i1 i2 h12 h2T se1 se2
       hse1 hse2 j⟩

/-- Witness for C5 at `W = 2`, `H = 3`, `T = 2` (bands `(0,1)` and `(2,2)`),
index `j = 4` (row 2): the band `(0,1)` does not touch it, and no index lies
in both bands' rectangles. -/
theorem C5_disjoint_write_sets_witness :
    ((GoL.update_world [1, 0, 0, 1, 1, 0] [1, 0, 0, 1, 1, 0] 2 3 0 1).getD 4 0 =
      ([1, 0, 0, 1, 1, 0] : List Int).getD 4 0) ∧
    ¬((∃ yy xx : Nat,
        ((0 : Int), (1 : Int)).1 ≤ (yy : Int) ∧
          (yy : Int) ≤ ((0 : Int), (1 : Int)).2 ∧ xx < 2 ∧ 4 = yy * 2 + xx) ∧
      (∃ yy xx : Nat,
        ((2 : Int), (2 : Int)).1 ≤ (yy : Int) ∧
          (yy : Int) ≤ ((2 : Int), (2 : Int)).2 ∧ xx < 2 ∧ 4 = yy * 2 + xx)) :=
  ⟨(C5_disjoint_write_sets 2 3 2 (by decide) (by decide)).1
      [1, 0, 0, 1, 1, 0] [1, 0, 0, 1, 1, 0] 0 1 (by decide) (by decide) 4
      (by rintro ⟨yy, xx, h1, h2, h3, h4⟩; omega),
   (C5_disjoint_write_sets 2 3 2 (by decide) (by decide)).2 0 1 (by decide)
     (by decide) ((0 : Int), (1 : Int)) ((2 : Int), (2 : Int)) (by decide)
     (by decide) 4⟩

/-- C6: with more workers than rows (`T > H ≥ 1`), each of the first `H`
workers is assigned exactly the single row `(i,i)`, every trailing worker
gets the empty band `(H, H-1)` with `start_row > end_row`, `update_world`
performs no writes on such a band, and the final grid of the run equals
that of a run with `T = H` workers, for every `k` and every grid. -/
theorem C6_trailing_workers_idle (W H T : Nat) (hH : 1 ≤ H) (hT : H < T) :
    (∀ i : Nat, i < H → (GoL.mkBands H T)[i]? = some ((i : Int), (i : Int))) ∧
    (∀ i : Nat, H ≤ i → i < T →
      (GoL.mkBands H T)[i]? = some ((H : Int), (H : Int) - 1) ∧
        ((H : Int) > (H : Int) - 1)) ∧
    (∀ (w c : List Int) (s e : Int), e < s → GoL.update_world w c W H s e = w) ∧
    (∀ (k : Nat) (G : List Int),
      GoL.simulate T W H k G = GoL.simulate H W H k G) :=
  ⟨fun i hi => GoL.getElem?_mkBands_lt H T i hT hi,
   fun i h1 h2 => ⟨GoL.getElem?_mkBands_ge H T i hT h1 h2, by omega⟩,
   fun w c s e h => GoL.update_world_empty w c W H s e h,
   fun k G =>
     (GoL.simulate_eq_one T W H (by omega) k G).trans
       (GoL.simulate_eq_one H W H (by omega) k G).symm⟩

/-- Witness for C6 at `W = 2`, `H = 2`, `T = 4`. -/
theorem C6_trailing_workers_idle_witness :
    1 ≤ 2 ∧ 2 < 4 ∧
    ((GoL.mkBands 2 4)[1]? = some ((1 : Int), (1 : Int))) ∧
    ((GoL.mkBands 2 4)[3]? = some ((2 : Int), (2 : Int) - 1) ∧
      ((2 : Int) > (2 : Int) - 1)) ∧
    (GoL.update_world [1, 1, 1, 0] [1, 1, 1, 0] 2 2 5 2 = [1, 1, 1, 0]) ∧
    (GoL.simulate 4 2 2 1 [1, 1, 1, 0] = GoL.simulate 2 2 2 1 [1, 1, 1, 0]) :=
  ⟨by decide, by decide,
   (C6_trailing_workers_idle 2 2 4 (by decide) (by decide)).1 1 (by decide),
   (C6_trailing_workers_idle 2 2 4 (by decide) (by decide)).2.1 3 (by decide)
     (by decide),
   (C6_trailing_workers_idle 2 2 4 (by decide) (by decide)).2.2.1
     [1, 1, 1, 0] [1, 1, 1, 0] 5 2 (by decide),
   (C6_trailing_workers_idle 2 2 4 (by decide) (by decide)).2.2.2 1
     [1, 1, 1, 0]⟩

/-- C8 counterexample: passing `-p 5` makes `main` call `run_threads` with
5 worker threads, not the hardcoded default 2 — so the `-p` value does
configure the thread count, contradicting the claim. -/
theorem C8_counterexample :
    (GoL.parseArgs [GoL.Opt.p 5]).num_threads = 5 ∧
    (GoL.parseArgs []).num_threads = 2 ∧
    ¬((GoL.parseArgs [GoL.Opt.p 5]).num_threads =
        (GoL.parseArgs []).num_threads) := by
  exact ⟨rfl, rfl, by decide⟩

/-- C8 (amended): the `-p` option is wired directly to the thread count:
`main` passes to `run_threads` the last `-p` value, or the default 2 when
none is given.  The variable that is parsed in `main` but never used to
configure anything is `p` (initialised to 1 and only printed): no
command-line option ever writes it. -/
theorem C8_p_option (v : Int) (opts : List GoL.Opt) :
    (GoL.parseArgs (opts ++ [GoL.Opt.p v])).num_threads = v ∧
    (GoL.parseArgs opts).p = 1 ∧
    (GoL.parseArgs []).num_threads = 2 := by
  refine ⟨?_, ?_, rfl⟩
  · unfold GoL.parseArgs
    rw [List.foldl_append]
    rfl
  · exact GoL.foldl_applyOpt_p opts GoL.initialConfig

/-- C9: `initialize_world` returns `none` (no partial grid) when the
configuration source is missing, when the row, column or pair-count field
cannot be read, and when any announced coordinate pair cannot be read
(malformed token or end of file); on success it returns the
`num_cols * num_rows` grid in which a cell is ALIVE exactly when some
listed `(col,row)` pair maps to its index through the toroidal index
function, and every other cell is DEAD (0). -/
theorem C9_initialize_world_spec (rows cols : Int) (ps : List (Int × Int))
    (rest ts : List (Option Int))
    (hlen : (((ps.length : Nat) : Int) % (2 ^ 32 : Int)).toNat = ps.length)
    (hlen1 : ((((ps.length : Nat) : Int) + 1) % (2 ^ 32 : Int)).toNat =
      ps.length + 1) :
    (GoL.initialize_world none = none) ∧
    (GoL.initialize_world (some []) = none) ∧
    (GoL.initialize_world (some (none :: ts)) = none) ∧
    (GoL.initialize_world (some [some rows]) = none) ∧
    (GoL.initialize_world (some (some rows :: none :: ts)) = none) ∧
    (GoL.initialize_world (some [some rows, some cols]) = none) ∧
    (GoL.initialize_world (some (some rows :: some cols :: none :: ts)) =
      none) ∧
    (GoL.initialize_world
      (some (some rows :: some cols :: some 1 :: none :: ts)) = none) ∧
    (GoL.initialize_world
      (some (some rows :: some cols :: some 1 :: [])) = none) ∧
    (GoL.initialize_world
      (some (some rows :: some cols :: some ((ps.length : Nat) + 1 : Int) ::
        GoL.encodePairs ps)) = none) ∧
    (GoL.initialize_world
      (some (some rows :: some cols :: some ((ps.length : Nat) : Int) ::
        (GoL.encodePairs ps ++ rest))) =
      some (GoL.setPairs (List.replicate (cols * rows).toNat 0) ps
        cols.toNat rows.toNat, cols, rows)) ∧
    ((GoL.setPairs (List.replicate (cols * rows).toNat 0) ps
        cols.toNat rows.toNat).length = (cols * rows).toNat) ∧
    (∀ j : Nat, j < (cols * rows).toNat →
      (((GoL.setPairs (List.replicate (cols * rows).toNat 0) ps
          cols.toNat rows.toNat).getD j 0 = 1) ↔
        ∃ p ∈ ps,
          (GoL.translate_to_1D p.1 p.2 cols.toNat rows.toNat).toNat = j) ∧
      ((GoL.setPairs (List.replicate (cols * rows).toNat 0) ps
          cols.toNat rows.toNat).getD j 0 = 0 ∨
        (GoL.setPairs (List.replicate (cols * rows).toNat 0) ps
          cols.toNat rows.toNat).getD j 0 = 1)) := by
  refine ⟨rfl, rfl, rfl, rfl, rfl, rfl, rfl, ?_, ?_, ?_, ?_, ?_, ?_⟩
  · simp only [GoL.initialize_world, GoL.readInt]
    rw [show ((1 : Int) % (2 ^ 32 : Int)).toNat = 1 by decide]
    rfl
  · simp only [GoL.initialize_world, GoL.readInt]
    rw [show ((1 : Int) % (2 ^ 32 : Int)).toNat = 1 by decide]
    rfl
  · simp only [GoL.initialize_world, GoL.readInt]
    rw [show (((ps.length : Nat) + 1 : Int) % (2 ^ 32 : Int)).toNat =
        ps.length + 1 by exact_mod_cast hlen1]
    rw [GoL.read_pairs_too_many ps]
  · simp only [GoL.initialize_world, GoL.readInt]
    rw [hlen, GoL.read_pairs_encode ps]
  · rw [GoL.setPairs_length ps, List.length_replicate]
  · intro j hj
    constructor
    · have h1 := GoL.setPairs_getD ps (List.replicate (cols * rows).toNat 0)
        cols.toNat rows.toNat j (by rw [List.length_replicate]; exact hj)
      rw [GoL.replicate_getD_zero] at h1
      simpa using h1
    · rcases GoL.setPairs_getD_cases ps
          (List.replicate (cols * rows).toNat 0) cols.toNat rows.toNat j
        with h | h
      · rw [GoL.replicate_getD_zero] at h
        exact Or.inl h
      · exact Or.inr h

/-- Witness for C9: the file `2 3 2 / 0 0 / 4 1` (2 rows, 3 columns, pairs
`(0,0)` and `(4,1)`, the latter wrapping to column 1). -/
theorem C9_initialize_world_spec_witness :
    ((((([((0 : Int), (0 : Int)), ((4 : Int), (1 : Int))].length : Nat) : Int))
        % (2 ^ 32 : Int)).toNat =
      [((0 : Int), (0 : Int)), ((4 : Int), (1 : Int))].length) ∧
    (GoL.initialize_world
      (some (some 2 :: some 3 ::
        some (([((0 : Int), (0 : Int)), ((4 : Int), (1 : Int))].length : Nat) :
          Int) ::
        (GoL.encodePairs [((0 : Int), (0 : Int)), ((4 : Int), (1 : Int))] ++
          []))) =
      some (GoL.setPairs (List.replicate ((3 : Int) * 2).toNat 0)
        [((0 : Int), (0 : Int)), ((4 : Int), (1 : Int))]
        (3 : Int).toNat (2 : Int).toNat, 3, 2)) ∧
    GoL.setPairs (List.replicate ((3 : Int) * 2).toNat 0)
        [((0 : Int), (0 : Int)), ((4 : Int), (1 : Int))]
        (3 : Int).toNat (2 : Int).toNat = [1, 0, 0, 0, 1, 0] :=
  ⟨by decide,
   (C9_initialize_world_spec 2 3 [((0 : Int), (0 : Int)), ((4 : Int), (1 : Int))]
      [] [] (by decide) (by decide)).2.2.2.2.2.2.2.2.2.2.1,
   by decide⟩
